import Mathlib

/-!
Shallow embedding of the data-collection pipeline of `getjson.py` and
`getjson_cfbypass.py`, and the reporting helpers of `main.py`, together
with proofs of the specification's claims about them.

Dictionaries are modelled as association lists in insertion order, with
the update-in-place / append-on-new semantics of Python dict assignment.
Network and JSON decoding are modelled by abstract sources: a source maps
a page number (and, where the code re-fetches the same page, an attempt
number) to the outcome of that fetch.  Fixed sleeps have no observable
effect in the embedding and are dropped.
-/

namespace AllLimiteds

/-- An owner entry `{"name": ..., "count": ...}` in an item's owner list
(`getjson.py` line 130 / `getjson_cfbypass.py` line 179). -/
structure Owner where
  name : String
  count : Nat
deriving Repr, DecidableEq

/-- The `user` object of an inventory record; the `username` key may be
absent (`user.get("username", "")`). -/
structure UserRec where
  username : Option String
deriving Repr, DecidableEq

/-- One inventory record of an owners page; the `user` key may be absent
(`inv.get("user", {})`). -/
structure InvRecord where
  user : Option UserRec
deriving Repr, DecidableEq

/-- Effective username of an inventory record:
`inv.get("user", {}).get("username", "")`. -/
def InvRecord.effName (inv : InvRecord) : String :=
  ((inv.user.getD ⟨none⟩).username).getD ""

/-- Merge one username into an owner list — the inner `for owner in
items[item_id]["owners"]` loop of `process_owners`: the first entry whose
`name` equals the username has its `count` incremented (then `break`);
if no entry matches, a new entry with count 1 is appended. -/
def mergeOwner : List Owner → String → List Owner
  | [], username => [⟨username, 1⟩]
  | o :: rest, username =>
      if o.name = username then { o with count := o.count + 1 } :: rest
      else o :: mergeOwner rest username

/-- Merge a whole page of inventory records (`for inv in inventories`). -/
def mergeInventories (owners : List Owner) (invs : List InvRecord) : List Owner :=
  invs.foldl (fun acc inv => mergeOwner acc inv.effName) owners

/-- Merging a sequence of usernames, one at a time, into an initially
empty owner list. -/
def mergeAll (usernames : List String) : List Owner :=
  usernames.foldl mergeOwner []

/-- Order of first occurrence of each name in a sequence (used to state
the ordering part of the merge invariant). -/
def firstOccurrences (usernames : List String) : List String :=
  usernames.foldl (fun acc u => if u ∈ acc then acc else acc ++ [u]) []

lemma mergeOwner_names (ol : List Owner) (u : String) :
    (mergeOwner ol u).map Owner.name =
      if u ∈ ol.map Owner.name then ol.map Owner.name
      else ol.map Owner.name ++ [u] := by
  induction ol with
  | nil => simp [mergeOwner]
  | cons o rest ih =>
      by_cases h : o.name = u
      · simp [mergeOwner, h]
      · have h' : ¬(u = o.name) := fun hh => h hh.symm
        by_cases hm : u ∈ rest.map Owner.name <;>
          simp [mergeOwner, h, h', ih, hm]

lemma mergeOwner_count_sum (ol : List Owner) (u : String) :
    ((mergeOwner ol u).map Owner.count).sum = ((ol.map Owner.count).sum) + 1 := by
  induction ol with
  | nil => simp [mergeOwner]
  | cons o rest ih =>
      by_cases h : o.name = u <;> simp [mergeOwner, h, ih] <;> omega

lemma foldl_mergeOwner_names (us : List String) (acc : List Owner) :
    (us.foldl mergeOwner acc).map Owner.name =
      us.foldl (fun l u => if u ∈ l then l else l ++ [u]) (acc.map Owner.name) := by
  induction us generalizing acc with
  | nil => rfl
  | cons u rest ih => simp only [List.foldl_cons, ih, mergeOwner_names]

lemma foldl_mergeOwner_sum (us : List String) (acc : List Owner) :
    ((us.foldl mergeOwner acc).map Owner.count).sum =
      ((acc.map Owner.count).sum) + us.length := by
  induction us generalizing acc with
  | nil => simp
  | cons u rest ih =>
      simp only [List.foldl_cons, List.length_cons, ih, mergeOwner_count_sum]
      omega

lemma foldl_firstOcc_nodup (us : List String) (acc : List String) (h : acc.Nodup) :
    (us.foldl (fun l u => if u ∈ l then l else l ++ [u]) acc).Nodup := by
  induction us generalizing acc with
  | nil => exact h
  | cons u rest ih =>
      by_cases hm : u ∈ acc
      · simpa [hm] using ih acc h
      · have hn : (acc ++ [u]).Nodup := by
          simp [List.nodup_append, h, hm]
        simpa [hm] using ih (acc ++ [u]) hn

/-- C1: merging any finite sequence of usernames one at a time into an
initially empty owner list yields pairwise-distinct names, counts summing
to the length of the sequence, and entries ordered by each name's first
occurrence in the sequence. -/
theorem c1_merge_fold_invariant (usernames : List String) :
    ((mergeAll usernames).map Owner.name).Nodup ∧
    ((mergeAll usernames).map Owner.count).sum = usernames.length ∧
    (mergeAll usernames).map Owner.name = firstOccurrences usernames := by
  refine ⟨?_, ?_, ?_⟩
  · rw [mergeAll, foldl_mergeOwner_names]
    exact foldl_firstOcc_nodup usernames ([] : List String) (by simp)
  · rw [mergeAll, foldl_mergeOwner_sum]
    simp
  · rw [mergeAll, foldl_mergeOwner_names]
    rfl

/-- C2: one merge step either increments the count of the first entry
whose name equals the record's username (exact string equality), or, when
no entry matches, appends a new entry with that username and count 1; a
record whose `user` or `username` field is missing, or whose username is
empty, is merged under the empty string rather than dropped. -/
theorem c2_merge_step_characterization :
    (∀ (ol : List Owner) (u : String), u ∉ ol.map Owner.name →
        mergeOwner ol u = ol ++ [⟨u, 1⟩]) ∧
    (∀ (l1 l2 : List Owner) (o : Owner) (u : String), o.name = u →
        u ∉ l1.map Owner.name →
        mergeOwner (l1 ++ o :: l2) u = l1 ++ { o with count := o.count + 1 } :: l2) ∧
    (∀ (ol : List Owner) (inv : InvRecord),
        (inv.user = none ∨ inv.user = some ⟨none⟩ ∨ inv.user = some ⟨some ""⟩) →
        mergeOwner ol inv.effName = mergeOwner ol "") := by
  refine ⟨?_, ?_, ?_⟩
  · intro ol u h
    induction ol with
    | nil => simp [mergeOwner]
    | cons o rest ih =>
        have h1 : ¬(o.name = u) := by
          intro hh
          exact h (by simp [hh])
        have h2 : u ∉ rest.map Owner.name := by
          intro hm
          exact h (by simp [hm])
        simp [mergeOwner, h1, ih h2]
  · intro l1 l2 o u ho h
    induction l1 with
    | nil => simp [mergeOwner, ho]
    | cons p rest ih =>
        have h1 : ¬(p.name = u) := by
          intro hh
          exact h (by simp [hh])
        have h2 : u ∉ rest.map Owner.name := by
          intro hm
          exact h (by simp [hm])
        simp [mergeOwner, h1, ih h2]
  · intro ol inv h
    rcases h with h | h | h <;> simp [InvRecord.effName, h]

/-- Witness for C2 at concrete inputs. -/
theorem c2_merge_step_characterization_witness :
    mergeOwner [⟨"a", 2⟩] "b" = [⟨"a", 2⟩, ⟨"b", 1⟩] ∧
    mergeOwner [⟨"a", 2⟩, ⟨"b", 1⟩] "b" = [⟨"a", 2⟩, ⟨"b", 2⟩] ∧
    mergeOwner [] (InvRecord.effName ⟨none⟩) = mergeOwner [] "" :=
  ⟨c2_merge_step_characterization.1 [⟨"a", 2⟩] "b" (by decide),
   c2_merge_step_characterization.2.1 [⟨"a", 2⟩] [] ⟨"b", 1⟩ "b" rfl (by decide),
   c2_merge_step_characterization.2.2 [] ⟨none⟩ (Or.inl rfl)⟩

/-- Item identifiers: the `id` field of an items-page entry, an integer
or a string. -/
abbrev ItemId := Sum Int String

/-- An item record `{"name": ..., "owners": [...]}` stored in the global
`items` dict. -/
structure Item where
  name : String
  owners : List Owner
deriving Repr, DecidableEq

/-- The global `items` dict, in insertion order. -/
abbrev Snapshot := List (ItemId × Item)

/-- Python dict assignment `d[k] = v`: overwrite in place if the key is
present (keeping its position), otherwise append. -/
def dictInsert {α β : Type} [DecidableEq α] (d : List (α × β)) (k : α) (v : β) :
    List (α × β) :=
  if k ∈ d.map Prod.fst then d.map (fun p => if p.1 = k then (k, v) else p)
  else d ++ [(k, v)]

/-- Building a Python dict from a list of key-value pairs: first-insertion
position, last value wins. -/
def pyDict {α β : Type} [DecidableEq α] (l : List (α × β)) : List (α × β) :=
  l.foldl (fun d p => dictInsert d p.1 p.2) []

/-- Dict lookup `d[k]`. -/
def dictFind {α β : Type} [DecidableEq α] (d : List (α × β)) (k : α) : Option β :=
  (d.find? (fun p => decide (p.1 = k))).map Prod.snd

/-- A parsed owners page: the `inventories` and `pages` keys may be
absent (`data.get("inventories", [])`, `data.get("pages", 0)`). -/
structure OwnersPage where
  inventories : Option (List InvRecord)
  pages : Option Nat
deriving Repr

/-- An entry of an items page: `entry.get("id")`, `entry.get("name", "")`. -/
structure ItemEntry where
  id : ItemId
  name : Option String
deriving Repr, DecidableEq

/-- A parsed items page: the `data` list and `meta.lastPage`; either may
be absent (a missing `meta` object and a missing `lastPage` key are
modelled alike). -/
structure ItemsPage where
  data : Option (List ItemEntry)
  lastPage : Option Nat
deriving Repr

/-- Outcome of one walker-level fetch in bypass mode: `skippedFetch` when
`fetch_items`/`fetch_owners` returned `None` after exhausting its proxy
envelope retries, `badJson` when the returned body failed `json.loads`,
and `parsed` on success. -/
inductive BypassFetch (α : Type) where
  | skippedFetch
  | badJson
  | parsed (pg : α)
deriving Repr

/-- The `while True` loop of `process_owners` in `getjson_cfbypass.py`
(lines 152-185), with explicit fuel: state is the current `page` and the
walker-level `attempt` for that page (incremented when `json.loads` fails
and the same page is fetched again).  Returns the accumulated owner list,
or `none` when the fuel runs out. -/
def bypassOwnersRun (src : Nat → Nat → BypassFetch OwnersPage) :
    Nat → Nat → Nat → List Owner → Option (List Owner)
  | 0, _, _, _ => none
  | fuel + 1, page, attempt, owners =>
      match src page attempt with
      | .skippedFetch => some owners
      | .badJson => bypassOwnersRun src fuel page (attempt + 1) owners
      | .parsed pg =>
          if pg.inventories.getD [] = [] then some owners
          else
            let owners' := mergeInventories owners (pg.inventories.getD [])
            if pg.pages.getD 0 ≤ page then some owners'
            else bypassOwnersRun src fuel (page + 1) 1 owners'

/-- The `while True` loop of `process_owners` in `getjson.py` (lines
107-136): rate limiting is absorbed into the source (a 429 response is
refetched until a non-429 arrives), and a `none` outcome of
`src page attempt` models a `json.JSONDecodeError`, upon which the same
page is fetched again. -/
def directOwnersRun (src : Nat → Nat → Option OwnersPage) :
    Nat → Nat → Nat → List Owner → Option (List Owner)
  | 0, _, _, _ => none
  | fuel + 1, page, attempt, owners =>
      match src page attempt with
      | none => directOwnersRun src fuel page (attempt + 1) owners
      | some pg =>
          if pg.inventories.getD [] = [] then some owners
          else
            let owners' := mergeInventories owners (pg.inventories.getD [])
            if pg.pages.getD 0 ≤ page then some owners'
            else directOwnersRun src fuel (page + 1) 1 owners'

/-- Registering one items-page entry:
`items[item_id] = {"name": entry.get("name", ""), "owners": []}` followed
by `process_owners(item_id)`.  `runOwners` is the owners sub-walk for one
item id, returning the owner list it accumulates starting from the empty
list (the source mutates `items[item_id]["owners"]` in place; the
embedding writes the final list back); it returns `none` when its fuel
runs out. -/
def processEntry (runOwners : ItemId → Option (List Owner)) (snap : Snapshot)
    (e : ItemEntry) : Option Snapshot :=
  let snap1 := dictInsert snap e.id ⟨e.name.getD "", []⟩
  match runOwners e.id with
  | none => none
  | some ow => some (dictInsert snap1 e.id ⟨e.name.getD "", ow⟩)

/-- The `for entry in data` loop over one items page. -/
def processEntries (runOwners : ItemId → Option (List Owner)) :
    Snapshot → List ItemEntry → Option Snapshot
  | snap, [] => some snap
  | snap, e :: es =>
      match processEntry runOwners snap e with
      | none => none
      | some snap' => processEntries runOwners snap' es

/-- The `while True` loop of `process_all_items` in `getjson.py` (lines
77-97), with explicit fuel and a trace of the successfully parsed pages:
a `none` outcome of `src page attempt` models a `json.JSONDecodeError`
(the same page is fetched again); a missing `data` defaults to `[]` and a
missing `meta.lastPage` defaults to the current page. -/
def directItemsRun (src : Nat → Nat → Option ItemsPage)
    (runOwners : ItemId → Option (List Owner)) :
    Nat → Nat → Nat → Snapshot → List Nat → Option (Snapshot × List Nat)
  | 0, _, _, _, _ => none
  | fuel + 1, page, attempt, snap, trace =>
      match src page attempt with
      | none => directItemsRun src runOwners fuel page (attempt + 1) snap trace
      | some pg =>
          match processEntries runOwners snap (pg.data.getD []) with
          | none => none
          | some snap' =>
              if pg.lastPage.getD page ≤ page then some (snap', trace ++ [page])
              else directItemsRun src runOwners fuel (page + 1) 1 snap' (trace ++ [page])

/-- The `while True` loop of `process_all_items` in `getjson_cfbypass.py`
(lines 112-142): a skipped fetch or a non-list `data` advances to the
next page; a body that fails `json.loads` refetches the same page (next
attempt); otherwise the entries are processed and the `page >= lastPage`
check decides termination (a missing `lastPage` defaults to the current
page). -/
def bypassItemsRun (src : Nat → Nat → BypassFetch ItemsPage)
    (runOwners : ItemId → Option (List Owner)) :
    Nat → Nat → Nat → Snapshot → Option Snapshot
  | 0, _, _, _ => none
  | fuel + 1, page, attempt, snap =>
      match src page attempt with
      | .skippedFetch => bypassItemsRun src runOwners fuel (page + 1) 1 snap
      | .badJson => bypassItemsRun src runOwners fuel page (attempt + 1) snap
      | .parsed pg =>
          match pg.data with
          | none => bypassItemsRun src runOwners fuel (page + 1) 1 snap
          | some entries =>
              match processEntries runOwners snap entries with
              | none => none
              | some snap' =>
                  if pg.lastPage.getD page ≤ page then some snap'
                  else bypassItemsRun src runOwners fuel (page + 1) 1 snap'

/-- The retry loop shared by `fetch_items` and `fetch_owners` in
`getjson_cfbypass.py`: `env attempt` is the outcome of one proxy request
(`none` models a `KeyError` on the envelope or a `json.JSONDecodeError`
on the proxy response, `some body` the tag-stripped solution body).
`rem` attempts remain, starting at number `attempt`; when every attempt
fails, `None` is returned. -/
def fetchRetry (env : Nat → Option String) : Nat → Nat → Option String
  | 0, _ => none
  | rem + 1, attempt =>
      match env attempt with
      | some body => some body
      | none => fetchRetry env rem (attempt + 1)

/-- `fetch_items` in bypass mode: `max_retries = 5`, attempts 1..5. -/
def fetchItemsBypass (env : Nat → Option String) : Option String :=
  fetchRetry env 5 1

/-- `fetch_owners` in bypass mode: `max_retries = 7`, attempts 1..7. -/
def fetchOwnersBypass (env : Nat → Option String) : Option String :=
  fetchRetry env 7 1

/-- C3: the owners loop stops as soon as a successfully parsed page has
an empty or absent inventories list — on any page, including page 1,
whatever the declared `pages` value — in both walkers; when the
inventories are nonempty and the `pages` key is missing it is read as 0,
so the `page >= pages` check stops the loop right there; and a
terminating bypass run ends only on a skipped fetch, an empty
inventories list, or the `page >= pages` check (a terminating direct run
ends only on the latter two). -/
theorem c3_owners_loop_termination :
    (∀ (src : Nat → Nat → BypassFetch OwnersPage) (fuel page attempt : Nat)
        (owners : List Owner) (pg : OwnersPage),
        src page attempt = .parsed pg → pg.inventories.getD [] = [] →
        bypassOwnersRun src (fuel + 1) page attempt owners = some owners) ∧
    (∀ (src : Nat → Nat → Option OwnersPage) (fuel page attempt : Nat)
        (owners : List Owner) (pg : OwnersPage),
        src page attempt = some pg → pg.inventories.getD [] = [] →
        directOwnersRun src (fuel + 1) page attempt owners = some owners) ∧
    (∀ (src : Nat → Nat → BypassFetch OwnersPage) (fuel page attempt : Nat)
        (owners : List Owner) (pg : OwnersPage),
        src page attempt = .parsed pg → pg.pages = none →
        pg.inventories.getD [] ≠ [] →
        bypassOwnersRun src (fuel + 1) page attempt owners =
          some (mergeInventories owners (pg.inventories.getD []))) ∧
    (∀ (src : Nat → Nat → BypassFetch OwnersPage) (fuel page attempt : Nat)
        (owners result : List Owner),
        bypassOwnersRun src fuel page attempt owners = some result →
        ∃ q b, page ≤ q ∧
          (src q b = .skippedFetch ∨
           ∃ pg, src q b = .parsed pg ∧
             (pg.inventories.getD [] = [] ∨ pg.pages.getD 0 ≤ q))) ∧
    (∀ (src : Nat → Nat → Option OwnersPage) (fuel page attempt : Nat)
        (owners result : List Owner),
        directOwnersRun src fuel page attempt owners = some result →
        ∃ q b pg, page ≤ q ∧ src q b = some pg ∧
          (pg.inventories.getD [] = [] ∨ pg.pages.getD 0 ≤ q)) := by
  refine ⟨?_, ?_, ?_, ?_, ?_⟩
  · intro src fuel page attempt owners pg hsrc hinv
    simp [bypassOwnersRun, hsrc, hinv]
  · intro src fuel page attempt owners pg hsrc hinv
    simp [directOwnersRun, hsrc, hinv]
  · intro src fuel page attempt owners pg hsrc hpg hinv
    simp [bypassOwnersRun, hsrc, hinv, hpg]
  · intro src fuel
    induction fuel with
    | zero =>
        intro page attempt owners result h
        simp [bypassOwnersRun] at h
    | succ f ih =>
        intro page attempt owners result h
        simp only [bypassOwnersRun] at h
        cases hsrc : src page attempt with
        | skippedFetch => exact ⟨page, attempt, le_refl _, Or.inl hsrc⟩
        | badJson =>
            rw [hsrc] at h
            obtain ⟨q, b, hq, hc⟩ := ih page (attempt + 1) owners result h
            exact ⟨q, b, hq, hc⟩
        | parsed pg =>
            rw [hsrc] at h
            by_cases hinv : pg.inventories.getD [] = []
            · exact ⟨page, attempt, le_refl _, Or.inr ⟨pg, hsrc, Or.inl hinv⟩⟩
            · by_cases hpg : pg.pages.getD 0 ≤ page
              · exact ⟨page, attempt, le_refl _, Or.inr ⟨pg, hsrc, Or.inr hpg⟩⟩
              · simp only [if_neg hinv, if_neg hpg] at h
                obtain ⟨q, b, hq, hc⟩ := ih (page + 1) 1 _ result h
                exact ⟨q, b, by omega, hc⟩
  · intro src fuel
    induction fuel with
    | zero =>
        intro page attempt owners result h
        simp [directOwnersRun] at h
    | succ f ih =>
        intro page attempt owners result h
        simp only [directOwnersRun] at h
        cases hsrc : src page attempt with
        | none =>
            rw [hsrc] at h
            obtain ⟨q, b, pg, hq, hs, hc⟩ := ih page (attempt + 1) owners result h
            exact ⟨q, b, pg, hq, hs, hc⟩
        | some pg =>
            rw [hsrc] at h
            by_cases hinv : pg.inventories.getD [] = []
            · exact ⟨page, attempt, pg, le_refl _, hsrc, Or.inl hinv⟩
            · by_cases hpg : pg.pages.getD 0 ≤ page
              · exact ⟨page, attempt, pg, le_refl _, hsrc, Or.inr hpg⟩
              · simp only [if_neg hinv, if_neg hpg] at h
                obtain ⟨q, b, pg', hq, hs, hc⟩ := ih (page + 1) 1 _ result h
                exact ⟨q, b, pg', by omega, hs, hc⟩

/-- Witness for C3: a source whose page 2 is empty while declaring 100
more pages stops the loop at page 2, and a nonempty page with no `pages`
key stops the loop immediately after merging. -/
theorem c3_owners_loop_termination_witness :
    bypassOwnersRun (fun p _ => if p = 2 then .parsed ⟨some [], some 100⟩
      else .parsed ⟨some [⟨some ⟨some "x"⟩⟩], some 100⟩) 9 2 1 [⟨"x", 1⟩] =
      some [⟨"x", 1⟩] ∧
    bypassOwnersRun (fun _ _ => .parsed ⟨some [⟨some ⟨some "x"⟩⟩], none⟩) 9 1 1 [] =
      some (mergeInventories [] [⟨some ⟨some "x"⟩⟩]) :=
  ⟨c3_owners_loop_termination.1 _ 8 2 1 [⟨"x", 1⟩] ⟨some [], some 100⟩ rfl rfl,
   c3_owners_loop_termination.2.2.1 _ 8 1 1 [] ⟨some [⟨some ⟨some "x"⟩⟩], none⟩ rfl rfl
     (by decide)⟩

/-- C4: one step of the items loop returns exactly when the current page
is ≥ the response's `meta.lastPage` (a missing `lastPage` defaults to
the current page, hence stops) and otherwise recurses on the next page —
in both the direct and the bypass walkers — and against an items source
that always reports `lastPage = 3`, exactly pages 1, 2 and 3 are
fetched. -/
theorem c4_items_loop_lastpage :
    (∀ (src : Nat → Nat → Option ItemsPage) (runOwners : ItemId → Option (List Owner))
        (fuel page attempt : Nat) (snap snap' : Snapshot) (trace : List Nat)
        (pg : ItemsPage),
        src page attempt = some pg →
        processEntries runOwners snap (pg.data.getD []) = some snap' →
        (pg.lastPage.getD page ≤ page →
          directItemsRun src runOwners (fuel + 1) page attempt snap trace =
            some (snap', trace ++ [page])) ∧
        (page < pg.lastPage.getD page →
          directItemsRun src runOwners (fuel + 1) page attempt snap trace =
            directItemsRun src runOwners fuel (page + 1) 1 snap' (trace ++ [page]))) ∧
    (∀ (src : Nat → Nat → BypassFetch ItemsPage) (runOwners : ItemId → Option (List Owner))
        (fuel page attempt : Nat) (snap snap' : Snapshot)
        (pg : ItemsPage) (entries : List ItemEntry),
        src page attempt = .parsed pg → pg.data = some entries →
        processEntries runOwners snap entries = some snap' →
        (pg.lastPage.getD page ≤ page →
          bypassItemsRun src runOwners (fuel + 1) page attempt snap = some snap') ∧
        (page < pg.lastPage.getD page →
          bypassItemsRun src runOwners (fuel + 1) page attempt snap =
            bypassItemsRun src runOwners fuel (page + 1) 1 snap')) ∧
    (∀ (src : Nat → Nat → Option ItemsPage) (runOwners : ItemId → Option (List Owner))
        (fuel : Nat),
        (∀ p a, src p a = some ⟨some [], some 3⟩) → 3 ≤ fuel →
        directItemsRun src runOwners fuel 1 1 [] [] = some ([], [1, 2, 3])) := by
  refine ⟨?_, ?_, ?_⟩
  · intro src runOwners fuel page attempt snap snap' trace pg hsrc hproc
    constructor
    · intro hstop
      simp [directItemsRun, hsrc, hproc, hstop]
    · intro hlt
      simp [directItemsRun, hsrc, hproc, not_le.mpr hlt]
  · intro src runOwners fuel page attempt snap snap' pg entries hsrc hdata hproc
    constructor
    · intro hstop
      simp [bypassItemsRun, hsrc, hdata, hproc, hstop]
    · intro hlt
      simp [bypassItemsRun, hsrc, hdata, hproc, not_le.mpr hlt]
  · intro src runOwners fuel h hf
    obtain ⟨f, rfl⟩ : ∃ f, fuel = f + 3 := ⟨fuel - 3, by omega⟩
    have e3 : f + 3 = ((f + 1) + 1) + 1 := by omega
    rw [e3]
    simp [directItemsRun, h, processEntries]

/-- Witness for C4 at a concrete three-page source. -/
theorem c4_items_loop_lastpage_witness :
    directItemsRun (fun _ _ => some ⟨some [], some 3⟩) (fun _ => some []) 5 1 1 [] [] =
      some ([], [1, 2, 3]) :=
  c4_items_loop_lastpage.2.2 (fun _ _ => some ⟨some [], some 3⟩) (fun _ => some [])
    5 (fun _ _ => rfl) (by omega)

lemma fetchRetry_congr (env env' : Nat → Option String) (rem start : Nat)
    (h : ∀ i, start ≤ i → i < start + rem → env i = env' i) :
    fetchRetry env rem start = fetchRetry env' rem start := by
  induction rem generalizing start with
  | zero => rfl
  | succ r ih =>
      have h0 : env start = env' start := h start (le_refl _) (by omega)
      simp only [fetchRetry, h0]
      cases env' start with
      | some body => rfl
      | none =>
          exact ih (start + 1) (fun i h1 h2 => h i (by omega) (by omega))

lemma fetchRetry_none (env : Nat → Option String) (rem start : Nat)
    (h : ∀ i, start ≤ i → i < start + rem → env i = none) :
    fetchRetry env rem start = none := by
  induction rem generalizing start with
  | zero => rfl
  | succ r ih =>
      have h0 : env start = none := h start (le_refl _) (by omega)
      simp only [fetchRetry, h0]
      exact ih (start + 1) (fun i h1 h2 => h i (by omega) (by omega))

/-- C5: a malformed proxy envelope is retried within a cap of 5 attempts
for item pages and 7 for owner pages — the fetch outcome depends only on
attempts 1..5 (resp. 1..7) and is the terminal no-data outcome `none`
once they all fail — upon which the items walker advances to the next
page and continues, and the owners walker stops, returning the owners
accumulated so far for that item. -/
theorem c5_bounded_envelope_retries :
    (∀ env : Nat → Option String, (∀ i, i ≤ 5 → env i = none) →
        fetchItemsBypass env = none) ∧
    (∀ env : Nat → Option String, (∀ i, i ≤ 7 → env i = none) →
        fetchOwnersBypass env = none) ∧
    (∀ env env' : Nat → Option String, (∀ i, 1 ≤ i → i ≤ 5 → env i = env' i) →
        fetchItemsBypass env = fetchItemsBypass env') ∧
    (∀ env env' : Nat → Option String, (∀ i, 1 ≤ i → i ≤ 7 → env i = env' i) →
        fetchOwnersBypass env = fetchOwnersBypass env') ∧
    (∀ (src : Nat → Nat → BypassFetch ItemsPage)
        (runOwners : ItemId → Option (List Owner)) (fuel page attempt : Nat)
        (snap : Snapshot),
        src page attempt = .skippedFetch →
        bypassItemsRun src runOwners (fuel + 1) page attempt snap =
          bypassItemsRun src runOwners fuel (page + 1) 1 snap) ∧
    (∀ (src : Nat → Nat → BypassFetch OwnersPage) (fuel page attempt : Nat)
        (owners : List Owner),
        src page attempt = .skippedFetch →
        bypassOwnersRun src (fuel + 1) page attempt owners = some owners) := by
  refine ⟨?_, ?_, ?_, ?_, ?_, ?_⟩
  · intro env h
    exact fetchRetry_none env 5 1 (fun i h1 h2 => h i (by omega))
  · intro env h
    exact fetchRetry_none env 7 1 (fun i h1 h2 => h i (by omega))
  · intro env env' h
    exact fetchRetry_congr env env' 5 1 (fun i h1 h2 => h i h1 (by omega))
  · intro env env' h
    exact fetchRetry_congr env env' 7 1 (fun i h1 h2 => h i h1 (by omega))
  · intro src runOwners fuel page attempt snap hsrc
    simp [bypassItemsRun, hsrc]
  · intro src fuel page attempt owners hsrc
    simp [bypassOwnersRun, hsrc]

/-- Witness for C5: a proxy whose envelope is always malformed yields
`none` from both fetchers, the items walker steps from page 1 to page 2
on a skipped fetch, and the owners walker returns the accumulated
owners. -/
theorem c5_bounded_envelope_retries_witness :
    fetchItemsBypass (fun _ => none) = none ∧
    fetchOwnersBypass (fun _ => none) = none ∧
    bypassItemsRun (fun _ _ => .skippedFetch) (fun _ => some []) 1 1 1 [] =
      bypassItemsRun (fun _ _ => .skippedFetch) (fun _ => some []) 0 2 1 [] ∧
    bypassOwnersRun (fun _ _ => .skippedFetch) 1 1 1 [⟨"x", 3⟩] = some [⟨"x", 3⟩] :=
  ⟨c5_bounded_envelope_retries.1 (fun _ => none) (fun _ _ => rfl),
   c5_bounded_envelope_retries.2.1 (fun _ => none) (fun _ _ => rfl),
   c5_bounded_envelope_retries.2.2.2.2.1 (fun _ _ => .skippedFetch) (fun _ => some [])
     0 1 1 [] rfl,
   c5_bounded_envelope_retries.2.2.2.2.2 (fun _ _ => .skippedFetch) 0 1 1 [⟨"x", 3⟩] rfl⟩

/-- C6 counterexample: in bypass mode the walker-level retries on a body
that fails `json.loads` are NOT bounded by the 5 / 7 caps.  With a source
whose page 1 body always fails to parse (while page 2 is well formed and
final), a cap of 5 would abandon page 1 after at most 5 retries and let
the run finish on page 2 within a handful of steps; instead, after 40
loop iterations both walkers are still refetching page 1. -/
theorem c6_counterexample_unbounded_parse_retries :
    bypassItemsRun
      (fun p _ => if p = 1 then .badJson else .parsed ⟨some [], some 1⟩)
      (fun _ => some []) 40 1 1 [] = none ∧
    bypassOwnersRun
      (fun p _ => if p = 1 then .badJson else .parsed ⟨some [], some 0⟩)
      40 1 1 [] = none := by
  constructor <;> rfl

/-- C6 amended: when a fetched body fails JSON parsing in the pagination
walker, the whole fetch is retried (the walker re-invokes the fetch for
the same page, next attempt) — and these walker-level parse-failure
retries are unbounded in bypass mode just as in Direct mode; only the
proxy-envelope failures inside `fetch_items` / `fetch_owners` are capped
at 5 / 7. -/
theorem c6_amended_parse_retry_unbounded :
    (∀ (src : Nat → Nat → BypassFetch ItemsPage)
        (runOwners : ItemId → Option (List Owner)) (fuel page attempt : Nat)
        (snap : Snapshot),
        src page attempt = .badJson →
        bypassItemsRun src runOwners (fuel + 1) page attempt snap =
          bypassItemsRun src runOwners fuel page (attempt + 1) snap) ∧
    (∀ (src : Nat → Nat → BypassFetch ItemsPage)
        (runOwners : ItemId → Option (List Owner)) (page : Nat),
        (∀ a, src page a = .badJson) →
        ∀ fuel attempt snap,
          bypassItemsRun src runOwners fuel page attempt snap = none) ∧
    (∀ (src : Nat → Nat → BypassFetch OwnersPage) (page : Nat),
        (∀ a, src page a = .badJson) →
        ∀ fuel attempt owners,
          bypassOwnersRun src fuel page attempt owners = none) ∧
    (∀ (src : Nat → Nat → Option ItemsPage)
        (runOwners : ItemId → Option (List Owner)) (fuel page attempt : Nat)
        (snap : Snapshot) (trace : List Nat),
        src page attempt = none →
        directItemsRun src runOwners (fuel + 1) page attempt snap trace =
          directItemsRun src runOwners fuel page (attempt + 1) snap trace) ∧
    (∀ (src : Nat → Nat → Option ItemsPage)
        (runOwners : ItemId → Option (List Owner)) (page : Nat),
        (∀ a, src page a = none) →
        ∀ fuel attempt snap trace,
          directItemsRun src runOwners fuel page attempt snap trace = none) := by
  refine ⟨?_, ?_, ?_, ?_, ?_⟩
  · intro src runOwners fuel page attempt snap hsrc
    simp [bypassItemsRun, hsrc]
  · intro src runOwners page h fuel
    induction fuel with
    | zero => intro attempt snap; rfl
    | succ f ih =>
        intro attempt snap
        simp only [bypassItemsRun, h attempt]
        exact ih (attempt + 1) snap
  · intro src page h fuel
    induction fuel with
    | zero => intro attempt owners; rfl
    | succ f ih =>
        intro attempt owners
        simp only [bypassOwnersRun, h attempt]
        exact ih (attempt + 1) owners
  · intro src runOwners fuel page attempt snap trace hsrc
    simp [directItemsRun, hsrc]
  · intro src runOwners page h fuel
    induction fuel with
    | zero => intro attempt snap trace; rfl
    | succ f ih =>
        intro attempt snap trace
        simp only [directItemsRun, h attempt]
        exact ih (attempt + 1) snap trace

/-- Witness for the amended C6 at a source that always fails parsing. -/
theorem c6_amended_parse_retry_unbounded_witness :
    bypassItemsRun (fun _ _ => .badJson) (fun _ => some []) 9 1 1 [] = none ∧
    bypassOwnersRun (fun _ _ => .badJson) 9 1 1 [] = none ∧
    directItemsRun (fun _ _ => none) (fun _ => some []) 9 1 1 [] [] = none :=
  ⟨c6_amended_parse_retry_unbounded.2.1 (fun _ _ => .badJson) (fun _ => some [])
     1 (fun _ => rfl) 9 1 [],
   c6_amended_parse_retry_unbounded.2.2.1 (fun _ _ => .badJson)
     1 (fun _ => rfl) 9 1 [],
   c6_amended_parse_retry_unbounded.2.2.2.2 (fun _ _ => none) (fun _ => some [])
     1 (fun _ => rfl) 9 1 [] []⟩

lemma dictFind_overwrite {α β : Type} [DecidableEq α] (d : List (α × β))
    (k : α) (v : β) (hk : k ∈ d.map Prod.fst) :
    dictFind (d.map (fun p => if p.1 = k then (k, v) else p)) k = some v := by
  induction d with
  | nil => simp at hk
  | cons p rest ih =>
      by_cases hp : p.1 = k
      · simp [dictFind, hp, List.find?]
      · have hk' : k ∈ rest.map Prod.fst := by
          simp only [List.map_cons, List.mem_cons] at hk
          exact hk.resolve_left (fun h => hp h.symm)
        have := ih hk'
        simp only [dictFind] at this ⊢
        simpa [List.find?, hp] using this

lemma dictFind_append_self {α β : Type} [DecidableEq α] (d : List (α × β))
    (k : α) (v : β) (hk : k ∉ d.map Prod.fst) :
    dictFind (d ++ [(k, v)]) k = some v := by
  induction d with
  | nil => simp [dictFind, List.find?]
  | cons p rest ih =>
      have hp : ¬(p.1 = k) := by
        intro hh
        exact hk (by simp [hh])
      have hk' : k ∉ rest.map Prod.fst := by
        intro hh
        exact hk (by simp [hh])
      have := ih hk'
      simp only [dictFind] at this ⊢
      simpa [List.find?, hp] using this

lemma dictFind_dictInsert_self {α β : Type} [DecidableEq α] (d : List (α × β))
    (k : α) (v : β) : dictFind (dictInsert d k v) k = some v := by
  by_cases hk : k ∈ d.map Prod.fst
  · rw [dictInsert, if_pos hk]
    exact dictFind_overwrite d k v hk
  · rw [dictInsert, if_neg hk]
    exact dictFind_append_self d k v hk

/-- C7: registering an item id that is already present replaces its entry
with a fresh record whose owners list is empty, and after its owners are
reprocessed the entry holds exactly the owners computed in this pass —
for every prior snapshot, so previously accumulated owner counts for that
id are discarded, not merged. -/
theorem c7_id_collision_last_write_wins :
    (∀ (snap : Snapshot) (e : ItemEntry),
        dictFind (dictInsert snap e.id ⟨e.name.getD "", []⟩) e.id =
          some ⟨e.name.getD "", []⟩) ∧
    (∀ (runOwners : ItemId → Option (List Owner)) (snap snap' : Snapshot)
        (e : ItemEntry) (ow : List Owner),
        runOwners e.id = some ow →
        processEntry runOwners snap e = some snap' →
        dictFind snap' e.id = some ⟨e.name.getD "", ow⟩) := by
  constructor
  · intro snap e
    exact dictFind_dictInsert_self snap e.id ⟨e.name.getD "", []⟩
  · intro runOwners snap snap' e ow h1 h2
    simp only [processEntry, h1] at h2
    injection h2 with h2
    subst h2
    exact dictFind_dictInsert_self _ e.id _

/-- Witness for C7: a snapshot already holding counts for item 5 ends up
with exactly the freshly computed owners for item 5. -/
theorem c7_id_collision_last_write_wins_witness :
    dictFind [((Sum.inl 5 : ItemId), Item.mk "Hat" [⟨"x", 2⟩])] (Sum.inl 5) =
      some (Item.mk "Hat" [⟨"x", 2⟩]) :=
  c7_id_collision_last_write_wins.2 (fun _ => some [⟨"x", 2⟩])
    [((Sum.inl 5 : ItemId), Item.mk "Hat" [⟨"old", 42⟩])]
    [((Sum.inl 5 : ItemId), Item.mk "Hat" [⟨"x", 2⟩])]
    ⟨Sum.inl 5, some "Hat"⟩ [⟨"x", 2⟩] rfl (by decide)

/-- One insertion step of a stable descending-by-count sort: the
observable behaviour of `sorted(user_counts.items(), key=lambda x: x[1],
reverse=True)` in `main.py` (stable, descending by value). -/
def insertDescByCount (x : String × Nat) : List (String × Nat) → List (String × Nat)
  | [] => [x]
  | y :: ys => if x.2 < y.2 then y :: insertDescByCount x ys else x :: y :: ys

/-- Stable descending-by-count sort of the per-user totals. -/
def sortDescByCount (l : List (String × Nat)) : List (String × Nat) :=
  l.foldr insertDescByCount []

/-- `aggregate_others` from `main.py` lines 72-90: keep the first `top_n`
entries and assign the remainder of the total to the key "Others" via
Python dict assignment; an input of at most `top_n` entries is returned
as a copy. -/
def aggregate_others (user_counts : List (String × Nat)) (top_n : Nat) :
    List (String × Nat) :=
  let total := (user_counts.map Prod.snd).sum
  if user_counts.length ≤ top_n then user_counts
  else
    let top_n_dict := user_counts.take top_n
    let others_count := total - (top_n_dict.map Prod.snd).sum
    dictInsert top_n_dict "Others" others_count

/-- C8: sorting the aggregate counts {alice:5, bob:3, carol:9, dave:1}
descending yields carol, alice, bob, dave, and `aggregate_others` with
`top_n = 2` on the sorted mapping yields exactly
{carol:9, alice:5, Others:4}. -/
theorem c8_topn_aggregation_example :
    sortDescByCount [("alice", 5), ("bob", 3), ("carol", 9), ("dave", 1)] =
      [("carol", 9), ("alice", 5), ("bob", 3), ("dave", 1)] ∧
    aggregate_others
        (sortDescByCount [("alice", 5), ("bob", 3), ("carol", 9), ("dave", 1)]) 2 =
      [("carol", 9), ("alice", 5), ("Others", 4)] := by
  constructor <;> rfl

/-- C10 counterexample: `aggregate_others` does not preserve the total on
every input — when the label "Others" itself occurs among the kept
`top_n` entries, the dict assignment `top_n_dict["Others"] = others_count`
overwrites that entry's count instead of adding a bucket.  The input
{Others:5, a:3, b:1} with `top_n = 2` totals 9, but the result
{Others:1, a:3} totals 4. -/
theorem c10_counterexample_total_not_preserved :
    ((aggregate_others [("Others", 5), ("a", 3), ("b", 1)] 2).map Prod.snd).sum = 4 ∧
    (([("Others", 5), ("a", 3), ("b", 1)] : List (String × Nat)).map Prod.snd).sum
      = 9 := by
  constructor <;> rfl

/-- C10 amended: `aggregate_others` preserves the sum of the counts
whenever the label "Others" does not occur among the first `top_n`
entries of the input, and an input with at most `top_n` entries is
returned unchanged, with no "Others" key added. -/
theorem c10_amended_total_preservation :
    (∀ (uc : List (String × Nat)) (top_n : Nat),
        "Others" ∉ (uc.take top_n).map Prod.fst →
        ((aggregate_others uc top_n).map Prod.snd).sum = (uc.map Prod.snd).sum) ∧
    (∀ (uc : List (String × Nat)) (top_n : Nat),
        uc.length ≤ top_n → aggregate_others uc top_n = uc) := by
  constructor
  · intro uc top_n hO
    by_cases hlen : uc.length ≤ top_n
    · simp [aggregate_others, hlen]
    · have hsplit : (uc.map Prod.snd).sum =
          ((uc.take top_n).map Prod.snd).sum + ((uc.drop top_n).map Prod.snd).sum := by
        conv_lhs => rw [← List.take_append_drop top_n uc]
        rw [List.map_append, List.sum_append]
      simp only [aggregate_others, if_neg hlen, dictInsert, if_neg hO]
      rw [List.map_append, List.sum_append]
      simp only [List.map_cons, List.map_nil, List.sum_cons, List.sum_nil]
      omega
  · intro uc top_n hlen
    simp [aggregate_others, hlen]

/-- Witness for the amended C10 at concrete inputs. -/
theorem c10_amended_total_preservation_witness :
    ((aggregate_others [("a", 3), ("b", 2), ("c", 1)] 2).map Prod.snd).sum =
      (([("a", 3), ("b", 2), ("c", 1)] : List (String × Nat)).map Prod.snd).sum ∧
    aggregate_others [("a", 3)] 2 = [("a", 3)] :=
  ⟨c10_amended_total_preservation.1 [("a", 3), ("b", 2), ("c", 1)] 2 (by decide),
   c10_amended_total_preservation.2 [("a", 3)] 2 (by decide)⟩

/-- JSON values, the document shapes written by `json.dump` and read
back by `json.load` (pretty-printing with `indent=4` only affects
whitespace and is not observable at this level). -/
inductive JValue where
  | jnull
  | jbool (b : Bool)
  | jint (n : Int)
  | jstr (s : String)
  | jarr (elems : List JValue)
  | jobj (fields : List (String × JValue))

/-- JSON object key of an item id: `json.dump` coerces an integer dict
key to its decimal string; a string key is used as is. -/
def keyOfId : ItemId → String
  | .inl n => toString n
  | .inr s => s

/-- Serialization of one owner entry `{"name": ..., "count": ...}`. -/
def encodeOwner (o : Owner) : JValue :=
  .jobj [("name", .jstr o.name), ("count", .jint (o.count : Int))]

/-- Serialization of one item record `{"name": ..., "owners": [...]}`. -/
def encodeItem (it : Item) : JValue :=
  .jobj [("name", .jstr it.name), ("owners", .jarr (it.owners.map encodeOwner))]

/-- `save_owners` / `json.dump(items, f, indent=4)`, at the level of the
JSON document written. -/
def encodeSnapshot (snap : Snapshot) : JValue :=
  .jobj (snap.map fun p => (keyOfId p.1, encodeItem p.2))

/-- Element-wise fallible parsing of a JSON list: all elements must
parse, in order. -/
def optionTraverse {α β : Type} (f : α → Option β) : List α → Option (List β)
  | [] => some []
  | x :: xs =>
      match f x with
      | none => none
      | some y =>
          match optionTraverse f xs with
          | none => none
          | some ys => some (y :: ys)

/-- Reading one owner entry back from the loaded document. -/
def decodeOwner : JValue → Option Owner
  | .jobj [("name", .jstr n), ("count", .jint c)] =>
      if 0 ≤ c then some ⟨n, c.toNat⟩ else none
  | _ => none

/-- Reading one item record back from the loaded document. -/
def decodeItem : JValue → Option Item
  | .jobj [("name", .jstr n), ("owners", .jarr xs)] =>
      match optionTraverse decodeOwner xs with
      | some ows => some ⟨n, ows⟩
      | none => none
  | _ => none

/-- `json.load` of the snapshot document, read back into the snapshot
shape: object keys come back as strings (string-typed item ids), and
repeated keys follow Python dict construction (`pyDict`). -/
def decodeSnapshot : JValue → Option Snapshot
  | .jobj fields =>
      match optionTraverse (fun p => (decodeItem p.2).map
          fun it => ((Sum.inr p.1 : ItemId), it)) fields with
      | some l => some (pyDict l)
      | none => none
  | _ => none

lemma decodeOwner_encodeOwner (o : Owner) :
    decodeOwner (encodeOwner o) = some o := by
  simp [decodeOwner, encodeOwner]

lemma traverse_decodeOwner (ows : List Owner) :
    optionTraverse decodeOwner (ows.map encodeOwner) = some ows := by
  induction ows with
  | nil => rfl
  | cons o rest ih => simp [optionTraverse, decodeOwner_encodeOwner, ih]

lemma decodeItem_encodeItem (it : Item) :
    decodeItem (encodeItem it) = some it := by
  simp [decodeItem, encodeItem, traverse_decodeOwner]

lemma traverse_decode_fields (snap : Snapshot) :
    optionTraverse
        (fun p => (decodeItem p.2).map fun it => ((Sum.inr p.1 : ItemId), it))
        (snap.map fun p => (keyOfId p.1, encodeItem p.2)) =
      some (snap.map fun p => ((Sum.inr (keyOfId p.1) : ItemId), p.2)) := by
  induction snap with
  | nil => rfl
  | cons q rest ih => simp [optionTraverse, decodeItem_encodeItem, ih]

lemma foldl_dictInsert_append {α β : Type} [DecidableEq α] (l : List (α × β)) :
    ∀ acc : List (α × β), (acc.map Prod.fst ++ l.map Prod.fst).Nodup →
      l.foldl (fun d p => dictInsert d p.1 p.2) acc = acc ++ l := by
  induction l with
  | nil => intro acc _; simp
  | cons p rest ih =>
      intro acc h
      have hd : (acc.map Prod.fst).Disjoint (p.1 :: rest.map Prod.fst) :=
        ((List.nodup_append.mp (by simpa using h)).2.2)
      have hk : p.1 ∉ acc.map Prod.fst := fun hmem => hd hmem (by simp)
      have step : dictInsert acc p.1 p.2 = acc ++ [(p.1, p.2)] := by
        rw [dictInsert, if_neg hk]
      have h' : ((acc ++ [(p.1, p.2)]).map Prod.fst ++ rest.map Prod.fst).Nodup := by
        simpa [List.append_assoc] using h
      calc (p :: rest).foldl (fun d q => dictInsert d q.1 q.2) acc
      _ = rest.foldl (fun d q => dictInsert d q.1 q.2) (acc ++ [(p.1, p.2)]) := by
        rw [List.foldl_cons, step]
      _ = (acc ++ [(p.1, p.2)]) ++ rest := ih (acc ++ [(p.1, p.2)]) h'
      _ = acc ++ p :: rest := by simp

lemma pyDict_of_nodup {α β : Type} [DecidableEq α] (l : List (α × β))
    (h : (l.map Prod.fst).Nodup) : pyDict l = l := by
  have := foldl_dictInsert_append l [] (by simpa using h)
  simpa [pyDict] using this

lemma decodeSnapshot_encodeSnapshot (snap : Snapshot)
    (h : (snap.map (fun p => keyOfId p.1)).Nodup) :
    decodeSnapshot (encodeSnapshot snap) =
      some (snap.map fun p => ((Sum.inr (keyOfId p.1) : ItemId), p.2)) := by
  have hkeys : ((snap.map fun p =>
      ((Sum.inr (keyOfId p.1) : ItemId), p.2)).map Prod.fst).Nodup := by
    have : (snap.map fun p => ((Sum.inr (keyOfId p.1) : ItemId), p.2)).map Prod.fst =
        (snap.map fun p => keyOfId p.1).map Sum.inr := by
      simp [List.map_map, Function.comp]
    rw [this]
    exact h.map (fun a b hab => Sum.inr.inj hab)
  simp only [encodeSnapshot, decodeSnapshot, traverse_decode_fields]
  rw [pyDict_of_nodup _ hkeys]

/-- C9 counterexample: an integer item id does not survive the round
trip — `json.dump` coerces the dict key 10 to the string "10", so
loading yields a mapping keyed by the string "10", not by 10. -/
theorem c9_counterexample_int_ids_stringified :
    decodeSnapshot
        (encodeSnapshot [((Sum.inl 10 : ItemId), Item.mk "Hat" [⟨"x", 2⟩])]) =
      some [((Sum.inr "10" : ItemId), Item.mk "Hat" [⟨"x", 2⟩])] ∧
    decodeSnapshot
        (encodeSnapshot [((Sum.inl 10 : ItemId), Item.mk "Hat" [⟨"x", 2⟩])]) ≠
      some [((Sum.inl 10 : ItemId), Item.mk "Hat" [⟨"x", 2⟩])] := by
  constructor
  · rfl
  · decide

/-- C9 amended: saving then loading a snapshot (with distinct JSON keys)
preserves every name and owner name/count pair, and maps each id to its
JSON object key — integer ids come back as their decimal strings, string
ids unchanged; in particular a snapshot whose ids are all strings
round-trips to a structurally identical mapping. -/
theorem c9_amended_save_load_roundtrip :
    (∀ snap : Snapshot, (snap.map (fun p => keyOfId p.1)).Nodup →
        decodeSnapshot (encodeSnapshot snap) =
          some (snap.map fun p => ((Sum.inr (keyOfId p.1) : ItemId), p.2))) ∧
    (∀ snap : Snapshot, (snap.map (fun p => keyOfId p.1)).Nodup →
        (∀ p ∈ snap, ∃ s, p.1 = Sum.inr s) →
        decodeSnapshot (encodeSnapshot snap) = some snap) := by
  constructor
  · intro snap h
    exact decodeSnapshot_encodeSnapshot snap h
  · intro snap h hstr
    rw [decodeSnapshot_encodeSnapshot snap h]
    have haux : ∀ l : Snapshot, (∀ p ∈ l, ∃ s, p.1 = Sum.inr s) →
        l.map (fun p => ((Sum.inr (keyOfId p.1) : ItemId), p.2)) = l := by
      intro l
      induction l with
      | nil => intro _; rfl
      | cons q rest ih =>
          intro hl
          obtain ⟨s, hs⟩ := hl q (by simp)
          have hrest := ih (fun p hp => hl p (by simp [hp]))
          have hq : ((Sum.inr (keyOfId q.1) : ItemId), q.2) = q := by
            simp only [hs, keyOfId]
            rw [← hs]
          rw [List.map_cons, hrest, hq]
    rw [haux snap hstr]

/-- Witness for the amended C9: a one-item snapshot with a string id and
one with an integer id, round-tripped. -/
theorem c9_amended_save_load_roundtrip_witness :
    decodeSnapshot
        (encodeSnapshot [((Sum.inr "10" : ItemId), Item.mk "Hat" [⟨"x", 2⟩])]) =
      some [((Sum.inr "10" : ItemId), Item.mk "Hat" [⟨"x", 2⟩])] ∧
    decodeSnapshot
        (encodeSnapshot [((Sum.inl 7 : ItemId), Item.mk "Cap" [⟨"y", 1⟩])]) =
      some [((Sum.inr "7" : ItemId), Item.mk "Cap" [⟨"y", 1⟩])] :=
  ⟨c9_amended_save_load_roundtrip.2 [((Sum.inr "10" : ItemId), Item.mk "Hat" [⟨"x", 2⟩])]
     (by decide) (fun p hp => by
        simp at hp
        exact ⟨"10", by rw [hp]⟩),
   c9_amended_save_load_roundtrip.1 [((Sum.inl 7 : ItemId), Item.mk "Cap" [⟨"y", 1⟩])]
     (by decide)⟩

end AllLimiteds
